import Mathlib

/-!
Shallow embedding of the worker download utilities
(`workers/worker/utils/__init__.py`): the progress reporter `ReportHook`,
the streaming fetcher `stream`, its wrapper `download_file`, the device
capacity prober `get_sdcard_bytes`, and the retry configuration built by
`stream`.

Modelling conventions:
* Python machine-independent `int` is `ℤ` (byte counts in `ℕ` where the
  source can only produce non-negative values, e.g. `len(data)`).
* Python `float` division `float(a) / b` is modelled as exact rational
  division; `int(x)` truncation toward zero is `pyTrunc`.
* A raised exception is an `Except.error` carrying the message; the
  corresponding Python state object (which survives the raise) is returned
  alongside.
* External effects (HTTP response body, subprocess results) are inputs to
  the embedded functions: the response body is the list of chunks that
  `iter_content` yields, a subprocess result is `Except launchError stdoutLines`.
-/

namespace Worker

/-- Python `int(q)` on a rational: truncation toward zero. -/
def pyTrunc (q : ℚ) : ℤ := if q < 0 then -⌊-q⌋ else ⌊q⌋

/-- Python `c * n` string repetition (`n ≤ 0` yields the empty string). -/
def pyRepeat (c : Char) (n : ℤ) : String := String.mk (List.replicate n.toNat c)

/-- A Python value that `reporthook` receives as its `chunk` argument:
`stream` passes the `bytes` object just read, while the constructor
passes the integer `0`. -/
inductive PyVal where
  | int (z : ℤ)
  | bytes (bs : List ℕ)
deriving DecidableEq

/-- Python `chunk != 0`: an `int` compares by value, a `bytes` object is
never equal to an `int` (so even `b""` satisfies `chunk != 0`). -/
def PyVal.neZero : PyVal → Bool
  | .int z => decide (z ≠ 0)
  | .bytes _ => true

/-- State of a `ReportHook` instance: `_current_size`, `width`, `_last_line`. -/
structure RHState where
  current_size : ℤ
  width : ℤ
  last_line : Option String
deriving DecidableEq

/-- The complete-bar line `"[" + "." * avail_dots + "] 100%\n"`. -/
def fullBarLine (avail_dots : ℤ) : String :=
  "[" ++ pyRepeat '.' avail_dots ++ "] 100%\n"

/-- The local `ratio = min(float(self._current_size) / total_size, 1.0)`. -/
def ratioQ (cur total_size : ℤ) : ℚ := min ((cur : ℚ) / (total_size : ℚ)) 1

/-- The local `shaded_dots = min(int(ratio * avail_dots), avail_dots)`. -/
def shadedDots (cur avail_dots total_size : ℤ) : ℤ :=
  min (pyTrunc (ratioQ cur total_size * (avail_dots : ℚ))) avail_dots

/-- The local `percent = min(int(ratio * 100), 100)`. -/
def percentOf (cur total_size : ℤ) : ℤ :=
  min (pyTrunc (ratioQ cur total_size * 100)) 100

/-- The in-progress line `"[{sd}{sp}] {pc}%\r"` computed in the final
branch of `reporthook` (reached only when `current_size < total_size`). -/
def barLine (cur avail_dots total_size : ℤ) : String :=
  "[" ++ pyRepeat '.' (shadedDots cur avail_dots total_size)
    ++ pyRepeat ' ' (avail_dots - shadedDots cur avail_dots total_size)
    ++ "] " ++ toString (percentOf cur total_size) ++ "%\r"

/-- The line computed by `reporthook` from the updated `_current_size`,
the bar `width` and `total_size`; `Except.error` models the
`ZeroDivisionError` that `float(self._current_size) / total_size` raises
when `total_size == 0` (reachable only with `current_size < 0`). -/
def lineE (cur width total_size : ℤ) : Except String String :=
  let avail_dots := width - 2
  if total_size = -1 then .ok "unknown size"
  else if cur ≥ total_size then .ok (fullBarLine avail_dots)
  else if total_size = 0 then .error "ZeroDivisionError"
  else .ok (barLine cur avail_dots total_size)

/-- The `_current_size` update at the top of `reporthook`:
`if chunk != 0: self._current_size += chunk_size`. -/
def newSize (chunk : PyVal) (chunk_size : ℤ) (s : RHState) : ℤ :=
  if chunk.neZero then s.current_size + chunk_size else s.current_size

/-- `ReportHook.reporthook(chunk, chunk_size, total_size)`: updates
`_current_size` (by `chunk_size`, whenever `chunk != 0`), computes the
line, and prints it only when it differs from `_last_line`. The second
component is the text printed (`none` when suppressed), or the raised
exception. -/
def reporthook (chunk : PyVal) (chunk_size total_size : ℤ) (s : RHState) :
    RHState × Except String (Option String) :=
  match lineE (newSize chunk chunk_size s) s.width total_size with
  | .error e => ({ s with current_size := newSize chunk chunk_size s }, .error e)
  | .ok line =>
    if s.last_line ≠ some line then
      ({ current_size := newSize chunk chunk_size s, width := s.width,
         last_line := some line }, .ok (some line))
    else
      ({ s with current_size := newSize chunk chunk_size s }, .ok none)

/-- `ReportHook.__init__`: fields `0`, `60`, `None`, then
`reporthook(0, 0, 100)` to display the empty bar. -/
def initReportHook : RHState × Except String (Option String) :=
  reporthook (.int 0) 0 100 ⟨0, 60, none⟩

/-- The state of a freshly constructed `ReportHook`. -/
def initRH : RHState := initReportHook.1

/-- Runs a sequence of `reporthook(chunk, chunk_size, total_size)` calls
with a fixed `total_size`, collecting the printed lines in order; an
exception aborts the sequence. -/
def runHook (total_size : ℤ) : List (PyVal × ℤ) → RHState → RHState × List String
  | [], s => (s, [])
  | (ch, cs) :: rest, s =>
    match reporthook ch cs total_size s with
    | (s', .ok (some l)) =>
      let r := runHook total_size rest s'
      (r.1, l :: r.2)
    | (s', .ok none) => runHook total_size rest s'
    | (s', .error _) => (s', [])

/-! ## The streaming fetcher `stream` and its wrapper `download_file` -/

/-- `FAILURE_RETRIES = 6`. -/
def FAILURE_RETRIES : ℕ := 6

/-- The `urllib3 Retry` configuration values that `stream` passes. -/
structure Retry where
  total : ℕ
  connect : ℕ
  read : ℕ
  status : ℕ
  redirect : Bool
  backoff_factor : ℕ
  status_forcelist : List ℕ
deriving DecidableEq

/-- The retry policy constructed on every call of `stream`. -/
def streamRetries : Retry :=
  { total := FAILURE_RETRIES
    connect := FAILURE_RETRIES
    read := FAILURE_RETRIES
    status := 2
    redirect := false
    backoff_factor := 30
    status_forcelist := [413, 429, 500, 502, 503, 504] }

/-- The destination object `fd` of `stream`: either the file opened at
`write_to` (`isFile = true`) or the fresh in-memory `io` buffer
(`isFile = false`); `contents`/`pos` track written bytes and the read
cursor, `closed` whether `fd.close()` has run. -/
structure FDState where
  isFile : Bool
  contents : List ℕ
  pos : ℕ
  closed : Bool
deriving DecidableEq

/-- The total number of body bytes, `sum(len(data) for data in chunks)`. -/
def totalLen (chunks : List (List ℕ)) : ℕ := (chunks.map List.length).sum

/-- The `AssertionError` message
`"Downloaded size is different than expected ({} vs {})"`. -/
def sizeMismatchMsg (downloaded total_size : ℤ) : String :=
  "Downloaded size is different than expected (" ++ toString downloaded
    ++ " vs " ++ toString total_size ++ ")"

/-- The `for data in req.iter_content(block_size)` loop of `stream`: for
each chunk, the callback runs first (its exception aborts the loop with
the state as-is), then `total_downloaded += len(data)`, then
`if write_to: fd.write(data)` — note the write is guarded by the
truthiness of `write_to`, not by which kind of `fd` was opened.
The callback is an explicit state machine (state type `σ`) so that the
stateful `ReportHook.reporthook` bound method can be passed. -/
def streamLoop {σ : Type} (cb : σ → List ℕ → ℤ → ℤ → σ × Except String Unit)
    (block_size total_size : ℤ) (isFile : Bool) :
    List (List ℕ) → ℤ → FDState → σ → σ × FDState × Except String ℤ
  | [], downloaded, fd, st => (st, fd, .ok downloaded)
  | data :: rest, downloaded, fd, st =>
    match cb st data block_size total_size with
    | (st', .error e) => (st', fd, .error e)
    | (st', .ok _) =>
      let downloaded' := downloaded + (data.length : ℤ)
      let fd' := if isFile then
          { fd with contents := fd.contents ++ data, pos := fd.pos + data.length }
        else fd
      streamLoop cb block_size total_size isFile rest downloaded' fd' st'

/-- `stream(url, write_to, callback, block_size)`, from the point where
the response is available: `total_size` is `int(content-length or 0)`,
`chunks` the body chunks `iter_content` yields, `write_to` the optional
destination path. Returns the final callback state, the final `fd`
state, and either the raised exception or the returned pair
`(total_downloaded, write_to if write_to else fd)` (`Sum.inl` the path,
`Sum.inr` the buffer). -/
def stream {σ : Type} (cb : σ → List ℕ → ℤ → ℤ → σ × Except String Unit)
    (total_size : ℤ) (chunks : List (List ℕ)) (write_to : Option String)
    (block_size : ℤ) (st : σ) :
    σ × FDState × Except String (ℤ × (String ⊕ FDState)) :=
  let fd0 : FDState := ⟨write_to.isSome, [], 0, false⟩
  match streamLoop cb block_size total_size write_to.isSome chunks 0 fd0 st with
  | (st', fd, .error e) => (st', fd, .error e)
  | (st', fd, .ok downloaded) =>
    let fd' := if write_to.isSome then { fd with closed := true }
      else { fd with pos := 0 }
    if total_size ≠ 0 ∧ downloaded ≠ total_size then
      (st', fd', .error (sizeMismatchMsg downloaded total_size))
    else
      (st', fd', .ok (downloaded,
        match write_to with
        | some p => .inl p
        | none => .inr fd'))

/-- A callback that always succeeds and keeps no state. -/
def okCb : Unit → List ℕ → ℤ → ℤ → Unit × Except String Unit :=
  fun _ _ _ _ => ((), .ok ())

/-- The bound method `ReportHook().reporthook` as a stream callback:
`stream` passes the `bytes` chunk, the block size and the total size. -/
def hookCb : RHState → List ℕ → ℤ → ℤ → RHState × Except String Unit :=
  fun s data chunk_size total_size =>
    match reporthook (.bytes data) chunk_size total_size s with
    | (s', .ok _) => (s', .ok ())
    | (s', .error e) => (s', .error e)

/-- `download_file(url, fpath)`: builds a fresh `ReportHook`, then wraps
the `stream` call in `try/except Exception`, returning `(True, size)` or
`(False, exp)`. -/
def download_file (total_size : ℤ) (chunks : List (List ℕ)) (fpath : String) :
    Bool × (ℤ ⊕ String) :=
  match (stream hookCb total_size chunks (some fpath) 1024 initRH).2.2 with
  | .ok (size, _) => (true, .inl size)
  | .error e => (false, .inr e)

/-- A callback that always raises, to exercise the exception path of the
`for` loop in `stream`. -/
def failCb : Unit → List ℕ → ℤ → ℤ → Unit × Except String Unit :=
  fun _ _ _ _ => ((), .error "callback failure")

/-- Modelled from the spec: the Progress Reporter rendering rule as the
specification states it — `"unknown size"` for the unknown sentinel `-1`;
a full bar of `width - 2` dots with `100%` and a trailing newline when
`cumulative ≥ total`; otherwise `ratio = min(cumulative/total, 1.0)`,
`round_down(ratio * dot_slots)` dots, space padding, percentage
`round_down(ratio * 100)` clamped to 100, and a trailing carriage
return.  This is the comparison definition for claim C7; the code's own
rendering is `lineE`. -/
def specRenderLine (cur total_size width : ℤ) : String :=
  if total_size = -1 then "unknown size"
  else if cur ≥ total_size then "[" ++ pyRepeat '.' (width - 2) ++ "] 100%\n"
  else
    "[" ++ pyRepeat '.' ⌊min ((cur : ℚ) / (total_size : ℚ)) 1 * ((width - 2 : ℤ) : ℚ)⌋
      ++ pyRepeat ' '
        ((width - 2) - ⌊min ((cur : ℚ) / (total_size : ℚ)) 1 * ((width - 2 : ℤ) : ℚ)⌋)
      ++ "] " ++ toString (min ⌊min ((cur : ℚ) / (total_size : ℚ)) 1 * 100⌋ 100)
      ++ "%\r"

/-! ## The device capacity prober `get_sdcard_bytes`

A subprocess invocation is modelled by its result: `Except.error e` when
`subprocess.run` itself raises (e.g. the utility is missing), otherwise
`Except.ok` with the lines of the captured stdout (Python reads them via
`splitlines`, so an empty stdout gives `[]`). -/

/-- Numeric value of a digit string, as `int()` computes it. -/
def digitsToNat (ds : List Char) : ℕ :=
  ds.foldl (fun a c => a * 10 + (c.toNat - '0'.toNat)) 0

/-- `re.search("([0-9]+) bytes,", line)`: the leftmost maximal digit run
immediately followed by `" bytes,"`; returns the integer value of the
captured group. (At a digit position the engine takes the maximal run —
backtracking cannot help since the tail pattern starts with a non-digit —
then requires the literal; otherwise it advances one position.) -/
def searchBytesRe : List Char → Option ℕ
  | [] => none
  | c :: rest =>
    if c.isDigit then
      let ds := (c :: rest).takeWhile Char.isDigit
      let tail := (c :: rest).dropWhile Char.isDigit
      if " bytes,".data.isPrefixOf tail then some (digitsToNat ds)
      else searchBytesRe rest
    else searchBytesRe rest

/-- Strategy 1, the whole `try` block: run `/sbin/fdisk -l`, take the
first stdout line (`IndexError` if there is none), regex-search it
(`AttributeError` if no match).  Every exception is caught and logged,
collapsing the block to an `Option`. -/
def fdiskProbe (fdiskRes : Except String (List String)) : Option ℕ :=
  match fdiskRes with
  | .error _ => none
  | .ok lines =>
    match lines.head? with
    | none => none
    | some line => searchBytesRe line.data

/-- `re.match(r"\t\t\t<integer>(\d+)</integer>", line)`: anchored at the
start of the line (trailing text allowed). -/
def matchPlistInt (l : List Char) : Option ℕ :=
  let pre := "\t\t\t<integer>".data
  if pre.isPrefixOf l then
    let rest := l.drop pre.length
    let ds := rest.takeWhile Char.isDigit
    let rest' := rest.dropWhile Char.isDigit
    if ds ≠ [] ∧ "</integer>".data.isPrefixOf rest' then some (digitsToNat ds)
    else none
  else none

/-- The `diskutil` stdout scan: first line with a `<integer>` match. -/
def scanPlist : List String → Option ℕ
  | [] => none
  | l :: rest =>
    match matchPlistInt l.data with
    | some n => some n
    | none => scanPlist rest

/-- `get_sdcard_bytes(sdcard_path)`.  Strategy 1 (`fdisk`) is inside
`try/except Exception`; on failure control falls through.  Strategy 2
(`diskutil`) runs only when `sys.platform == "darwin"` and is *not*
guarded: a `subprocess.run` exception there propagates to the caller
(`Except.error`).  If no strategy yields a value the function returns 0. -/
def get_sdcard_bytes (fdiskRes : Except String (List String))
    (platform : String) (diskutilRes : Except String (List String)) :
    Except String ℕ :=
  match fdiskProbe fdiskRes with
  | some n => .ok n
  | none =>
    if platform = "darwin" then
      match diskutilRes with
      | .error e => .error e
      | .ok lines =>
        match scanPlist lines with
        | some n => .ok n
        | none => .ok 0
    else .ok 0

/-! ## Helper lemmas -/

lemma strData_append (a b : String) : (a ++ b).data = a.data ++ b.data := by
  rw [String.congr_append]

lemma pyTrunc_of_nonneg {q : ℚ} (h : 0 ≤ q) : pyTrunc q = ⌊q⌋ := by
  unfold pyTrunc
  rw [if_neg (not_lt.mpr h)]

lemma barLine_getLast (cur avail total : ℤ) :
    (barLine cur avail total).data.getLast? = some '\r' := by
  unfold barLine
  simp only [strData_append]
  rw [List.append_assoc, List.append_assoc, List.append_assoc, List.append_assoc,
    List.getLast?_append_of_ne_nil, List.getLast?_append_of_ne_nil,
    List.getLast?_append_of_ne_nil, List.getLast?_append_of_ne_nil,
    List.getLast?_append_of_ne_nil] <;> simp

lemma fullBarLine_getLast (avail : ℤ) :
    (fullBarLine avail).data.getLast? = some '\n' := by
  unfold fullBarLine
  simp only [strData_append]
  rw [List.append_assoc, List.getLast?_append_of_ne_nil,
    List.getLast?_append_of_ne_nil] <;> simp

lemma barLine_ne_fullBarLine (cur avail total avail' : ℤ) :
    barLine cur avail total ≠ fullBarLine avail' := by
  intro h
  have h2 : (barLine cur avail total).data.getLast?
      = (fullBarLine avail').data.getLast? := by rw [h]
  rw [barLine_getLast, fullBarLine_getLast] at h2
  simp at h2

lemma fullBarLine_head (avail : ℤ) :
    (fullBarLine avail).data.head? = some '[' := by
  unfold fullBarLine
  simp only [strData_append]
  rfl

lemma barLine_head (cur avail total : ℤ) :
    (barLine cur avail total).data.head? = some '[' := by
  unfold barLine
  simp only [strData_append]
  rfl

lemma fullBarLine_ne_unknown (avail : ℤ) : fullBarLine avail ≠ "unknown size" := by
  intro h
  have h2 : (fullBarLine avail).data.head? = ("unknown size").data.head? := by rw [h]
  rw [fullBarLine_head] at h2
  simp at h2

lemma barLine_ne_unknown (cur avail total : ℤ) :
    barLine cur avail total ≠ "unknown size" := by
  intro h
  have h2 : (barLine cur avail total).data.head? = ("unknown size").data.head? := by
    rw [h]
  rw [barLine_head] at h2
  simp at h2

lemma lineE_ok_of_nonneg {cur : ℤ} (width total : ℤ) (h : 0 ≤ cur) :
    ∃ l, lineE cur width total = .ok l := by
  unfold lineE
  by_cases h1 : total = -1
  · exact ⟨_, by rw [if_pos h1]⟩
  · by_cases h2 : cur ≥ total
    · exact ⟨_, by rw [if_neg h1, if_pos h2]⟩
    · have h3 : total ≠ 0 := by
        intro h0
        exact h2 (h0 ▸ h)
      exact ⟨_, by rw [if_neg h1, if_neg h2, if_neg h3]⟩

/-- Full reduction of `reporthook` once the computed line is known. -/
lemma reporthook_of_lineE_ok {ch : PyVal} {cs t : ℤ} {s : RHState} {line : String}
    (h : lineE (newSize ch cs s) s.width t = .ok line) :
    reporthook ch cs t s =
      if s.last_line ≠ some line then
        (⟨newSize ch cs s, s.width, some line⟩, .ok (some line))
      else
        ({ s with current_size := newSize ch cs s }, .ok none) := by
  unfold reporthook
  rw [h]

lemma reporthook_of_lineE_error {ch : PyVal} {cs t : ℤ} {s : RHState} {e : String}
    (h : lineE (newSize ch cs s) s.width t = .error e) :
    reporthook ch cs t s =
      ({ s with current_size := newSize ch cs s }, .error e) := by
  unfold reporthook
  rw [h]

lemma reporthook_current_size (ch : PyVal) (cs t : ℤ) (s : RHState) :
    (reporthook ch cs t s).1.current_size = newSize ch cs s := by
  cases h : lineE (newSize ch cs s) s.width t with
  | error e => rw [reporthook_of_lineE_error h]
  | ok line =>
    rw [reporthook_of_lineE_ok h]
    split <;> rfl

lemma reporthook_width (ch : PyVal) (cs t : ℤ) (s : RHState) :
    (reporthook ch cs t s).1.width = s.width := by
  cases h : lineE (newSize ch cs s) s.width t with
  | error e => rw [reporthook_of_lineE_error h]
  | ok line =>
    rw [reporthook_of_lineE_ok h]
    split <;> rfl

lemma lineE_of_lt {cur width total : ℤ} (h1 : total ≠ -1) (h2 : cur < total)
    (h3 : total ≠ 0) : lineE cur width total = .ok (barLine cur (width - 2) total) := by
  unfold lineE
  rw [if_neg h1, if_neg (not_le.mpr h2), if_neg h3]

lemma lineE_of_ge {cur width total : ℤ} (h1 : total ≠ -1) (h2 : total ≤ cur) :
    lineE cur width total = .ok (fullBarLine (width - 2)) := by
  unfold lineE
  rw [if_neg h1, if_pos h2]

lemma initRH_eq : initRH = ⟨0, 60, some (barLine 0 58 100)⟩ := by
  have hn : newSize (.int 0) 0 ⟨0, 60, none⟩ = 0 := by
    unfold newSize PyVal.neZero
    simp
  have h : lineE (newSize (.int 0) 0 ⟨0, 60, none⟩) 60 100
      = .ok (barLine 0 58 100) := by
    rw [hn]
    exact lineE_of_lt (by decide) (by decide) (by decide)
  unfold initRH initReportHook
  rw [reporthook_of_lineE_ok h]
  rw [if_pos (by simp : (none : Option String) ≠ some (barLine 0 58 100))]
  rw [hn]

lemma totalLen_nil : totalLen [] = 0 := rfl

lemma totalLen_cons (d : List ℕ) (rest : List (List ℕ)) :
    totalLen (d :: rest) = d.length + totalLen rest := by
  unfold totalLen
  simp

/-- When every callback call succeeds (and preserves an invariant `P` on
its state), the `iter_content` loop consumes all chunks, accumulates
their total length, and writes them to `fd` exactly when `isFile`. -/
lemma streamLoop_ok {σ : Type} (cb : σ → List ℕ → ℤ → ℤ → σ × Except String Unit)
    (P : σ → Prop) (bs t : ℤ) (isF : Bool)
    (hP : ∀ s data, P s → (cb s data bs t).2 = Except.ok () ∧ P (cb s data bs t).1) :
    ∀ (chunks : List (List ℕ)) (d : ℤ) (fd : FDState) (st : σ), P st →
    ∃ st', P st' ∧ streamLoop cb bs t isF chunks d fd st =
      (st',
        (if isF then
          { fd with contents := fd.contents ++ chunks.flatten,
                    pos := fd.pos + totalLen chunks }
          else fd),
        Except.ok (d + (totalLen chunks : ℤ))) := by
  intro chunks
  induction chunks with
  | nil =>
    intro d fd st hst
    refine ⟨st, hst, ?_⟩
    unfold streamLoop
    rw [totalLen_nil]
    cases isF <;> simp
  | cons data rest ih =>
    intro d fd st hst
    obtain ⟨hok, hP'⟩ := hP st data hst
    obtain ⟨st1, hst1eq⟩ : ∃ st1, cb st data bs t = (st1, Except.ok ()) := by
      refine ⟨(cb st data bs t).1, ?_⟩
      rw [← hok]
    have hPst1 : P st1 := by rw [hst1eq] at hP'; exact hP'
    obtain ⟨st', hPst', hrest⟩ := ih (d + (data.length : ℤ))
      (if isF then
        { fd with contents := fd.contents ++ data,
                  pos := fd.pos + data.length }
        else fd) st1 hPst1
    refine ⟨st', hPst', ?_⟩
    unfold streamLoop
    rw [hst1eq]
    simp only []
    rw [hrest]
    rw [totalLen_cons]
    cases isF <;> simp [List.append_assoc] <;> omega

/-- `stream` with a file destination: the loop writes all chunks to the
file, the file is closed, and the size check decides the outcome. -/
lemma stream_ok_some {σ : Type} (cb : σ → List ℕ → ℤ → ℤ → σ × Except String Unit)
    (P : σ → Prop) (t : ℤ) (chunks : List (List ℕ)) (p : String) (bs : ℤ) (st : σ)
    (hP : ∀ s data, P s → (cb s data bs t).2 = Except.ok () ∧ P (cb s data bs t).1)
    (hst : P st) :
    ∃ st', P st' ∧ stream cb t chunks (some p) bs st =
      (st', ⟨true, chunks.flatten, totalLen chunks, true⟩,
        if t ≠ 0 ∧ (totalLen chunks : ℤ) ≠ t then
          Except.error (sizeMismatchMsg (totalLen chunks) t)
        else Except.ok ((totalLen chunks : ℤ), Sum.inl p)) := by
  obtain ⟨st', hP', hloop⟩ :=
    streamLoop_ok cb P bs t true hP chunks 0 ⟨true, [], 0, false⟩ st hst
  refine ⟨st', hP', ?_⟩
  unfold stream
  simp only [Option.isSome_some]
  rw [hloop]
  simp
  split <;> simp_all

/-- `stream` with no destination: the loop writes nothing to the
in-memory buffer (the write is guarded by the truthiness of `write_to`),
the cursor is reset, and the size check decides the outcome. -/
lemma stream_ok_none {σ : Type} (cb : σ → List ℕ → ℤ → ℤ → σ × Except String Unit)
    (P : σ → Prop) (t : ℤ) (chunks : List (List ℕ)) (bs : ℤ) (st : σ)
    (hP : ∀ s data, P s → (cb s data bs t).2 = Except.ok () ∧ P (cb s data bs t).1)
    (hst : P st) :
    ∃ st', P st' ∧ stream cb t chunks none bs st =
      (st', ⟨false, [], 0, false⟩,
        if t ≠ 0 ∧ (totalLen chunks : ℤ) ≠ t then
          Except.error (sizeMismatchMsg (totalLen chunks) t)
        else Except.ok ((totalLen chunks : ℤ), Sum.inr ⟨false, [], 0, false⟩)) := by
  obtain ⟨st', hP', hloop⟩ :=
    streamLoop_ok cb P bs t false hP chunks 0 ⟨false, [], 0, false⟩ st hst
  refine ⟨st', hP', ?_⟩
  unfold stream
  simp only [Option.isSome_none]
  rw [hloop]
  simp
  split <;> simp_all

/-- The `ReportHook` callback never raises and keeps `_current_size`
non-negative, as long as the chunk size is non-negative. -/
lemma hookCb_ok {s : RHState} (data : List ℕ) (bs t : ℤ)
    (h : 0 ≤ s.current_size) (hbs : 0 ≤ bs) :
    (hookCb s data bs t).2 = Except.ok () ∧
      0 ≤ (hookCb s data bs t).1.current_size := by
  unfold hookCb
  have hns : newSize (.bytes data) bs s = s.current_size + bs := by
    unfold newSize PyVal.neZero
    simp
  have h0 : 0 ≤ newSize (.bytes data) bs s := by omega
  obtain ⟨l, hl⟩ := lineE_ok_of_nonneg s.width t h0
  rw [reporthook_of_lineE_ok hl]
  by_cases hll : s.last_line ≠ some l
  · rw [if_pos hll]
    exact ⟨rfl, h0⟩
  · rw [if_neg hll]
    exact ⟨rfl, h0⟩

/-! ## The claims -/

/-- Claim C1 (code bug): with `write_to = None` the spec says every
received chunk is appended to the in-memory buffer and the rewound
buffer holds exactly the downloaded bytes; but the write in the loop is
guarded by `if write_to:`, so the returned buffer stays empty.  At the
concrete input of one chunk `[97, 98, 99]` with content length 3 the
call succeeds and returns the buffer with `contents = []`, cursor 0,
although the downloaded bytes flatten to `[97, 98, 99] ≠ []`. -/
theorem claim_C1 :
    stream okCb 3 [[97, 98, 99]] none 1024 () =
      ((), ⟨false, [], 0, false⟩,
        Except.ok (3, Sum.inr ⟨false, [], 0, false⟩)) ∧
    [[97, 98, 99]].flatten ≠ ([] : List ℕ) :=
  ⟨rfl, by decide⟩

/-- Claim C2: `stream` fails with the size-mismatch `AssertionError` iff
the declared total size is non-zero and differs from the sum of received
chunk lengths; with a non-zero matching total it succeeds carrying
exactly that byte count; with total 0 no size validation happens. -/
theorem claim_C2 {σ : Type} (cb : σ → List ℕ → ℤ → ℤ → σ × Except String Unit)
    (hcb : ∀ s d c t, (cb s d c t).2 = Except.ok ())
    (total_size : ℤ) (chunks : List (List ℕ)) (write_to : Option String)
    (block_size : ℤ) (st : σ) :
    ((∃ e, (stream cb total_size chunks write_to block_size st).2.2
          = Except.error e) ↔
        (total_size ≠ 0 ∧ (totalLen chunks : ℤ) ≠ total_size)) ∧
    (∀ e, (stream cb total_size chunks write_to block_size st).2.2
          = Except.error e →
        e = sizeMismatchMsg (totalLen chunks) total_size) ∧
    (total_size ≠ 0 → (totalLen chunks : ℤ) = total_size →
        ∃ ret, (stream cb total_size chunks write_to block_size st).2.2
          = Except.ok (total_size, ret)) ∧
    (total_size = 0 →
        ∃ ret, (stream cb total_size chunks write_to block_size st).2.2
          = Except.ok ((totalLen chunks : ℤ), ret)) := by
  have hP : ∀ s data, True →
      (cb s data block_size total_size).2 = Except.ok () ∧ True :=
    fun s data _ => ⟨hcb s data block_size total_size, trivial⟩
  have key : ∃ ret, (stream cb total_size chunks write_to block_size st).2.2 =
      if total_size ≠ 0 ∧ (totalLen chunks : ℤ) ≠ total_size then
        Except.error (sizeMismatchMsg (totalLen chunks) total_size)
      else Except.ok ((totalLen chunks : ℤ), ret) := by
    cases write_to with
    | none =>
      obtain ⟨st', _, hs⟩ :=
        stream_ok_none cb (fun _ => True) total_size chunks block_size st hP trivial
      exact ⟨_, by rw [hs]⟩
    | some p =>
      obtain ⟨st', _, hs⟩ :=
        stream_ok_some cb (fun _ => True) total_size chunks p block_size st hP trivial
      exact ⟨_, by rw [hs]⟩
  obtain ⟨ret, hres⟩ := key
  by_cases hc : total_size ≠ 0 ∧ (totalLen chunks : ℤ) ≠ total_size
  · rw [hres, if_pos hc]
    refine ⟨⟨fun _ => hc, fun _ => ⟨_, rfl⟩⟩, ?_, ?_, ?_⟩
    · intro e he
      exact ((Except.error.injEq _ _).mp he).symm
    · intro h1 h2
      exact absurd h2 hc.2
    · intro h0
      exact absurd h0 hc.1
  · rw [hres, if_neg hc]
    refine ⟨⟨?_, fun h => absurd h hc⟩, ?_, ?_, ?_⟩
    · rintro ⟨e, he⟩
      simp at he
    · intro e he
      simp at he
    · intro h1 h2
      exact ⟨ret, by rw [h2]⟩
    · intro h0
      exact ⟨ret, rfl⟩

/-- Witness for C2 at a concrete input: two chunks of total length 5,
declared total 5, no destination — success carrying byte count 5. -/
theorem claim_C2_witness :
    ∃ ret, (stream okCb 5 [[1, 2], [3, 4, 5]] none 2 ()).2.2
      = Except.ok (5, ret) :=
  (claim_C2 okCb (fun _ _ _ _ => rfl) 5 [[1, 2], [3, 4, 5]] none 2 ()).2.2.1
    (by decide) (by decide)

/-- Claim C3: `download_file` always returns a definite pair — either
`(True, byte count)` on success or `(False, error)` — for every declared
total size and body; no exception escapes the `try/except Exception`. -/
theorem claim_C3 :
    ∀ (total_size : ℤ) (chunks : List (List ℕ)) (fpath : String),
    download_file total_size chunks fpath
        = (true, Sum.inl (totalLen chunks : ℤ)) ∨
    ∃ e, download_file total_size chunks fpath = (false, Sum.inr e) := by
  intro t chunks fpath
  obtain ⟨st', _, hs⟩ :=
    stream_ok_some hookCb (fun s => 0 ≤ s.current_size) t chunks fpath 1024 initRH
      (fun s data h => hookCb_ok data 1024 t h (by norm_num))
      (by rw [initRH_eq])
  unfold download_file
  rw [hs]
  by_cases hc : t ≠ 0 ∧ (totalLen chunks : ℤ) ≠ t
  · rw [if_pos hc]
    exact Or.inr ⟨_, rfl⟩
  · rw [if_neg hc]
    exact Or.inl rfl

/-- Counterexample for C5 as stated: with a file destination and a
callback that raises during streaming, `stream` propagates the error
with the file handle still open (`closed = false`). -/
theorem claim_C5_cex :
    (stream failCb 10 [[1, 2, 3]] (some "sd.img") 1024 ()).2.1.closed = false ∧
    (stream failCb 10 [[1, 2, 3]] (some "sd.img") 1024 ()).2.2
      = Except.error "callback failure" :=
  ⟨rfl, rfl⟩

/-- Claim C5 (amended): when `stream` is given a file destination, the
file handle is closed on the exit paths that run the body to completion
— success and size-mismatch failure; an error raised by the callback
during streaming, however, propagates with the handle left open. -/
theorem claim_C5 {σ : Type} (cb : σ → List ℕ → ℤ → ℤ → σ × Except String Unit)
    (hcb : ∀ s d c t, (cb s d c t).2 = Except.ok ())
    (total_size : ℤ) (chunks : List (List ℕ)) (fpath : String)
    (block_size : ℤ) (st : σ) :
    (stream cb total_size chunks (some fpath) block_size st).2.1.closed = true := by
  obtain ⟨st', _, hs⟩ :=
    stream_ok_some cb (fun _ => True) total_size chunks fpath block_size st
      (fun s data _ => ⟨hcb s data block_size total_size, trivial⟩) trivial
  rw [hs]

/-- Witness for C5 at a concrete input. -/
theorem claim_C5_witness :
    (stream okCb 0 [[9]] (some "f.img") 1 ()).2.1.closed = true :=
  claim_C5 okCb (fun _ _ _ _ => rfl) 0 [[9]] "f.img" 1 ()

/-- Claim C6: the retry policy `stream` configures on every call has
total attempts 6, connect budget 6, read budget 6, status budget 2,
backoff factor 30, redirects not counted as failures, and the retryable
status set exactly `{413, 429, 500, 502, 503, 504}`. -/
theorem claim_C6 :
    streamRetries.total = 6 ∧ streamRetries.connect = 6 ∧
    streamRetries.read = 6 ∧ streamRetries.status = 2 ∧
    streamRetries.backoff_factor = 30 ∧ streamRetries.redirect = false ∧
    ∀ c : ℕ, c ∈ streamRetries.status_forcelist ↔
      (c = 413 ∨ c = 429 ∨ c = 500 ∨ c = 502 ∨ c = 503 ∨ c = 504) := by
  refine ⟨rfl, rfl, rfl, rfl, rfl, rfl, ?_⟩
  intro c
  simp [streamRetries]

lemma get_sdcard_eq_some {f : Except String (List String)} {n : ℕ}
    (platform : String) (d : Except String (List String))
    (hf : fdiskProbe f = some n) :
    get_sdcard_bytes f platform d = Except.ok n := by
  unfold get_sdcard_bytes
  rw [hf]

lemma get_sdcard_eq_none {f : Except String (List String)}
    (platform : String) (d : Except String (List String))
    (hf : fdiskProbe f = none) :
    get_sdcard_bytes f platform d =
      (if platform = "darwin" then
        match d with
        | .error e => Except.error e
        | .ok lines =>
          match scanPlist lines with
          | some n => Except.ok n
          | none => Except.ok 0
      else Except.ok 0) := by
  unfold get_sdcard_bytes
  rw [hf]

/-- Counterexample for C4 as stated: on darwin, when the `fdisk` strategy
fails and launching `diskutil` itself raises (utility missing), the
exception propagates out of `get_sdcard_bytes` instead of being absorbed
into the sentinel 0. -/
theorem claim_C4_cex :
    get_sdcard_bytes (.error "fdisk: command not found") "darwin"
        (.error "diskutil: command not found")
      = Except.error "diskutil: command not found" := rfl

/-- Claim C4 (amended): every failure of the `fdisk` strategy is
absorbed; on a non-darwin platform the function never raises and
returns 0 when that strategy fails; on darwin, when the `diskutil`
subprocess launches successfully, parse failures are absorbed and the
function returns 0 when neither strategy yields a value — but an
exception launching `diskutil` on darwin propagates. -/
theorem claim_C4 :
    ∀ (fdiskRes : Except String (List String)) (platform : String)
      (diskutilRes : Except String (List String)),
    (platform ≠ "darwin" →
        ∃ n, get_sdcard_bytes fdiskRes platform diskutilRes = Except.ok n) ∧
    (∀ ls, diskutilRes = Except.ok ls →
        ∃ n, get_sdcard_bytes fdiskRes platform diskutilRes = Except.ok n) ∧
    (fdiskProbe fdiskRes = none → platform ≠ "darwin" →
        get_sdcard_bytes fdiskRes platform diskutilRes = Except.ok 0) ∧
    (∀ ls, fdiskProbe fdiskRes = none → diskutilRes = Except.ok ls →
        scanPlist ls = none →
        get_sdcard_bytes fdiskRes platform diskutilRes = Except.ok 0) := by
  intro fdiskRes platform diskutilRes
  cases hf : fdiskProbe fdiskRes with
  | some n =>
    rw [get_sdcard_eq_some platform diskutilRes hf]
    exact ⟨fun _ => ⟨n, rfl⟩, fun _ _ => ⟨n, rfl⟩,
      fun h _ => Option.noConfusion h,
      fun _ h _ _ => Option.noConfusion h⟩
  | none =>
    rw [get_sdcard_eq_none platform diskutilRes hf]
    by_cases hp : platform = "darwin"
    · rw [if_pos hp]
      refine ⟨fun h => absurd hp h, ?_, fun _ h => absurd hp h, ?_⟩
      · intro ls hls
        rw [hls]
        show ∃ m, (match scanPlist ls with
          | some k => Except.ok k
          | none => Except.ok 0) = Except.ok m
        cases hs : scanPlist ls with
        | some k => exact ⟨k, rfl⟩
        | none => exact ⟨0, rfl⟩
      · intro ls _ hls hscan
        rw [hls]
        show (match scanPlist ls with
          | some k => Except.ok k
          | none => Except.ok 0) = Except.ok 0
        rw [hscan]
    · rw [if_neg hp]
      exact ⟨fun _ => ⟨0, rfl⟩, fun _ _ => ⟨0, rfl⟩, fun _ _ => rfl,
        fun _ _ _ _ => rfl⟩

/-- Witness for C4 at concrete inputs: `fdisk` launch failure on a
non-darwin platform yields the sentinel 0, and on darwin with readable
but matchless `diskutil` output it also yields 0. -/
theorem claim_C4_witness :
    get_sdcard_bytes (Except.error "boom") "linux" (Except.ok []) = Except.ok 0 ∧
    get_sdcard_bytes (Except.error "boom") "darwin" (Except.ok ["junk"])
      = Except.ok 0 :=
  ⟨(claim_C4 (Except.error "boom") "linux" (Except.ok [])).2.2.1 rfl (by decide),
   (claim_C4 (Except.error "boom") "darwin" (Except.ok ["junk"])).2.2.2
     ["junk"] rfl rfl (by decide)⟩

lemma lineE_of_neg_one (cur width : ℤ) :
    lineE cur width (-1) = Except.ok "unknown size" := by
  unfold lineE
  rw [if_pos rfl]

lemma initPrint_eq : initReportHook.2 = Except.ok (some (barLine 0 58 100)) := by
  have hn : newSize (.int 0) 0 ⟨0, 60, none⟩ = 0 := by
    unfold newSize PyVal.neZero
    simp
  have h : lineE (newSize (.int 0) 0 ⟨0, 60, none⟩) 60 100
      = .ok (barLine 0 58 100) := by
    rw [hn]
    exact lineE_of_lt (by decide) (by decide) (by decide)
  unfold initReportHook
  rw [reporthook_of_lineE_ok h]
  rw [if_pos (by simp : (none : Option String) ≠ some (barLine 0 58 100))]

/-- The code's rendering agrees with the spec's rendering rule whenever
the cumulative count is non-negative and the bar width is at least 2
(the `ReportHook` width is always 60). -/
lemma lineE_eq_spec :
    ∀ (cur width total_size : ℤ), 0 ≤ cur → 2 ≤ width →
      lineE cur width total_size = Except.ok (specRenderLine cur total_size width) := by
  intro cur width t hcur hw
  unfold specRenderLine
  by_cases h1 : t = -1
  · rw [if_pos h1]
    subst h1
    exact lineE_of_neg_one cur width
  · rw [if_neg h1]
    by_cases h2 : cur ≥ t
    · rw [if_pos h2]
      rw [lineE_of_ge h1 h2]
      rfl
    · rw [if_neg h2]
      push_neg at h2
      have ht0 : 0 < t := lt_of_le_of_lt hcur h2
      rw [lineE_of_lt h1 h2 (by omega)]
      unfold barLine shadedDots percentOf ratioQ
      have htq : (0 : ℚ) < (t : ℚ) := by exact_mod_cast ht0
      have havail : (0 : ℚ) ≤ ((width - 2 : ℤ) : ℚ) := by
        have hz : (0 : ℤ) ≤ width - 2 := by omega
        exact_mod_cast hz
      have hr0 : (0 : ℚ) ≤ min ((cur : ℚ) / (t : ℚ)) 1 :=
        le_min (div_nonneg (by exact_mod_cast hcur) (le_of_lt htq)) zero_le_one
      have hr1 : min ((cur : ℚ) / (t : ℚ)) 1 ≤ 1 := min_le_right _ _
      have h3 : pyTrunc (min ((cur : ℚ) / (t : ℚ)) 1 * ((width - 2 : ℤ) : ℚ))
          = ⌊min ((cur : ℚ) / (t : ℚ)) 1 * ((width - 2 : ℤ) : ℚ)⌋ :=
        pyTrunc_of_nonneg (mul_nonneg hr0 havail)
      have h5 : pyTrunc (min ((cur : ℚ) / (t : ℚ)) 1 * 100)
          = ⌊min ((cur : ℚ) / (t : ℚ)) 1 * 100⌋ :=
        pyTrunc_of_nonneg (mul_nonneg hr0 (by norm_num))
      have h4 : ⌊min ((cur : ℚ) / (t : ℚ)) 1 * ((width - 2 : ℤ) : ℚ)⌋ ≤ width - 2 := by
        calc ⌊min ((cur : ℚ) / (t : ℚ)) 1 * ((width - 2 : ℤ) : ℚ)⌋
            ≤ ⌊((width - 2 : ℤ) : ℚ)⌋ :=
              Int.floor_le_floor (mul_le_of_le_one_left havail hr1)
          _ = width - 2 := Int.floor_intCast _
      rw [h3, h5, min_eq_left h4]

/-- Claim C7: the line computed by `reporthook` follows the spec's
rendering rule — at construction the empty 0% bar is printed before any
chunk arrives, and for every state with non-negative cumulative count
(and the fixed width 60 ≥ 2) the computed line is exactly the spec's:
`"unknown size"` for total −1, the full `width − 2`-dot 100% bar with a
newline when cumulative ≥ total, else the floor-of-ratio bar with
clamped percentage and a carriage return. -/
theorem claim_C7 :
    initReportHook.2 = Except.ok (some (specRenderLine 0 100 60)) ∧
    ∀ (cur width total_size : ℤ), 0 ≤ cur → 2 ≤ width →
      lineE cur width total_size
        = Except.ok (specRenderLine cur total_size width) := by
  constructor
  · rw [initPrint_eq]
    have h1 := lineE_eq_spec 0 60 100 (by norm_num) (by norm_num)
    have h2 : lineE 0 60 100 = Except.ok (barLine 0 58 100) := by
      have h := @lineE_of_lt 0 60 100 (by decide) (by decide) (by decide)
      norm_num at h
      exact h
    rw [h2] at h1
    injection h1 with h3
    rw [h3]
  · exact lineE_eq_spec

/-- Witness for C7 at a concrete input. -/
theorem claim_C7_witness :
    lineE 5 60 7 = Except.ok (specRenderLine 5 7 60) :=
  claim_C7.2 5 60 7 (by decide) (by decide)

lemma runHook_cons_print {t cs : ℤ} {ch : PyVal} {rest : List (PyVal × ℤ)}
    {s s' : RHState} {l : String}
    (h : reporthook ch cs t s = (s', .ok (some l))) :
    runHook t ((ch, cs) :: rest) s =
      ((runHook t rest s').1, l :: (runHook t rest s').2) := by
  simp only [runHook]
  rw [h]

lemma runHook_cons_skip {t cs : ℤ} {ch : PyVal} {rest : List (PyVal × ℤ)}
    {s s' : RHState}
    (h : reporthook ch cs t s = (s', .ok none)) :
    runHook t ((ch, cs) :: rest) s = runHook t rest s' := by
  simp only [runHook]
  rw [h]

lemma runHook_cons_error {t cs : ℤ} {ch : PyVal} {rest : List (PyVal × ℤ)}
    {s s' : RHState} {e : String}
    (h : reporthook ch cs t s = (s', .error e)) :
    runHook t ((ch, cs) :: rest) s = (s', []) := by
  simp only [runHook]
  rw [h]

lemma runHook_current_size_mono (t : ℤ) (calls : List (PyVal × ℤ)) :
    ∀ s : RHState, (∀ p ∈ calls, 0 ≤ p.2) →
    s.current_size ≤ (runHook t calls s).1.current_size := by
  induction calls with
  | nil =>
    intro s _
    exact le_refl _
  | cons pr rest ih =>
    obtain ⟨ch, cs⟩ := pr
    intro s h
    have hcs : 0 ≤ cs := h (ch, cs) (List.mem_cons_self _ _)
    have hrest : ∀ p ∈ rest, 0 ≤ p.2 :=
      fun p hp => h p (List.mem_cons_of_mem _ hp)
    have hstep : s.current_size ≤ (reporthook ch cs t s).1.current_size := by
      rw [reporthook_current_size]
      unfold newSize
      split <;> omega
    rcases hrh : reporthook ch cs t s with ⟨s', res⟩
    rw [hrh] at hstep
    rcases res with e | o
    · rw [runHook_cons_error hrh]
      exact hstep
    · rcases o with _ | l
      · rw [runHook_cons_skip hrh]
        exact le_trans hstep (ih s' hrest)
      · rw [runHook_cons_print hrh]
        exact le_trans hstep (ih s' hrest)

/-- Claim C9: the cumulative byte counter: a call whose chunk differs
from the integer 0 (true of every `bytes` object, the empty one
included) adds exactly `chunk_size`; a call with the integer chunk 0
leaves it unchanged; with non-negative chunk sizes the counter is
monotonically non-decreasing, across single calls and call sequences. -/
theorem claim_C9 :
    (∀ (ch : PyVal) (cs t : ℤ) (s : RHState), ch.neZero = true →
        (reporthook ch cs t s).1.current_size = s.current_size + cs) ∧
    (∀ bs : List ℕ, (PyVal.bytes bs).neZero = true) ∧
    (∀ (cs t : ℤ) (s : RHState),
        (reporthook (.int 0) cs t s).1.current_size = s.current_size) ∧
    (∀ (ch : PyVal) (cs t : ℤ) (s : RHState), 0 ≤ cs →
        s.current_size ≤ (reporthook ch cs t s).1.current_size) ∧
    (∀ (t : ℤ) (calls : List (PyVal × ℤ)) (s : RHState),
        (∀ p ∈ calls, 0 ≤ p.2) →
        s.current_size ≤ (runHook t calls s).1.current_size) := by
  refine ⟨?_, fun _ => rfl, ?_, ?_, fun t calls s h => runHook_current_size_mono t calls s h⟩
  · intro ch cs t s h
    rw [reporthook_current_size]
    unfold newSize
    rw [if_pos h]
  · intro cs t s
    rw [reporthook_current_size]
    unfold newSize PyVal.neZero
    simp
  · intro ch cs t s h
    rw [reporthook_current_size]
    unfold newSize
    split <;> omega

/-- Witness for C9 at concrete inputs: a bytes chunk adds the chunk
size; the integer chunk 0 leaves the counter unchanged. -/
theorem claim_C9_witness :
    (reporthook (.bytes [7]) 4 10 ⟨3, 60, none⟩).1.current_size = 3 + 4 ∧
    (reporthook (.int 0) 4 10 ⟨3, 60, none⟩).1.current_size = 3 :=
  ⟨claim_C9.1 (.bytes [7]) 4 10 ⟨3, 60, none⟩ rfl,
   claim_C9.2.2.1 4 10 ⟨3, 60, none⟩⟩

/-- Claim C10: `reporthook` is total for every integer `total_size` once
the cumulative count is non-negative (which non-negative chunk sizes
preserve): no division by zero is reached.  For `total_size = 0` — what
`stream` passes when the content-length header is absent — the computed
line is the 100% full bar, never the `"unknown size"` text, which is
produced exactly for `total_size = -1`. -/
theorem claim_C10 :
    (∀ (ch : PyVal) (cs t : ℤ) (s : RHState),
        0 ≤ s.current_size → 0 ≤ cs →
        ∃ out, (reporthook ch cs t s).2 = Except.ok out) ∧
    (∀ cur width : ℤ, 0 ≤ cur →
        lineE cur width 0 = Except.ok (fullBarLine (width - 2))) ∧
    (∀ cur width t : ℤ, t ≠ -1 →
        lineE cur width t ≠ Except.ok "unknown size") ∧
    (∀ cur width : ℤ, lineE cur width (-1) = Except.ok "unknown size") := by
  refine ⟨?_, ?_, ?_, fun cur width => lineE_of_neg_one cur width⟩
  · intro ch cs t s hs hcs
    have h0 : 0 ≤ newSize ch cs s := by
      unfold newSize
      split <;> omega
    obtain ⟨l, hl⟩ := lineE_ok_of_nonneg s.width t h0
    rw [reporthook_of_lineE_ok hl]
    by_cases hll : s.last_line ≠ some l
    · rw [if_pos hll]
      exact ⟨some l, rfl⟩
    · rw [if_neg hll]
      exact ⟨none, rfl⟩
  · intro cur width h
    exact lineE_of_ge (by decide) h
  · intro cur width t ht
    unfold lineE
    rw [if_neg ht]
    by_cases h2 : cur ≥ t
    · rw [if_pos h2]
      intro h
      injection h with h
      exact fullBarLine_ne_unknown _ h
    · rw [if_neg h2]
      by_cases h3 : t = 0
      · rw [if_pos h3]
        intro h
        cases h
      · rw [if_neg h3]
        intro h
        injection h with h
        exact barLine_ne_unknown _ _ _ h

/-- Witness for C10 at concrete inputs: a call with total 0 from the
zero state succeeds, and the total-0 line is the full bar. -/
theorem claim_C10_witness :
    (∃ out, (reporthook (.bytes []) 1024 0 ⟨0, 60, none⟩).2 = Except.ok out) ∧
    lineE 5 60 0 = Except.ok (fullBarLine (60 - 2)) :=
  ⟨claim_C10.1 (.bytes []) 1024 0 ⟨0, 60, none⟩ (by decide) (by decide),
   claim_C10.2.1 5 60 (by decide)⟩

/-- Once the last printed line is the full bar and the cumulative count
has reached the total, further strictly-advancing calls print nothing. -/
lemma runHook_prints_nothing (t : ℤ) (calls : List (PyVal × ℤ)) :
    ∀ s : RHState, s.width = 60 → s.last_line = some (fullBarLine 58) →
    t ≠ -1 → t ≤ s.current_size →
    (∀ p ∈ calls, p.1.neZero = true ∧ 0 ≤ p.2) →
    (runHook t calls s).2 = [] := by
  induction calls with
  | nil =>
    intro s _ _ _ _ _
    rfl
  | cons pr rest ih =>
    obtain ⟨ch, cs⟩ := pr
    intro s hw hl ht hts h
    have hcz := (h (ch, cs) (List.mem_cons_self _ _)).1
    have hcs := (h (ch, cs) (List.mem_cons_self _ _)).2
    have hns : newSize ch cs s = s.current_size + cs := by
      unfold newSize
      rw [if_pos hcz]
    have hge : t ≤ newSize ch cs s := by omega
    have hlineE : lineE (newSize ch cs s) s.width t = .ok (fullBarLine 58) := by
      rw [hw, lineE_of_ge ht hge]
      norm_num
    have hrh := reporthook_of_lineE_ok hlineE
    rw [if_neg (not_ne_iff.mpr hl)] at hrh
    rw [runHook_cons_skip hrh]
    exact ih _ hw hl ht hge fun p hp => h p (List.mem_cons_of_mem _ hp)

/-- Counting the full-bar prints of a strictly-advancing run that starts
below the total with a non-full last line: exactly one if the run
reaches the total, none otherwise. -/
lemma runHook_count_full (t : ℤ) (calls : List (PyVal × ℤ)) :
    ∀ s : RHState, s.width = 60 → s.last_line ≠ some (fullBarLine 58) →
    0 < t → s.current_size < t →
    (∀ p ∈ calls, p.1.neZero = true ∧ 0 < p.2) →
    (runHook t calls s).2.count (fullBarLine 58)
      = if t ≤ s.current_size + (calls.map Prod.snd).sum then 1 else 0 := by
  induction calls with
  | nil =>
    intro s hw hl ht hcur h
    simp only [runHook, List.count_nil, List.map_nil, List.sum_nil, add_zero]
    rw [if_neg (not_le.mpr hcur)]
  | cons pr rest ih =>
    obtain ⟨ch, cs⟩ := pr
    intro s hw hl ht hcur h
    have hcz := (h (ch, cs) (List.mem_cons_self _ _)).1
    have hcs := (h (ch, cs) (List.mem_cons_self _ _)).2
    have hrest : ∀ p ∈ rest, p.1.neZero = true ∧ 0 < p.2 :=
      fun p hp => h p (List.mem_cons_of_mem _ hp)
    have hns : newSize ch cs s = s.current_size + cs := by
      unfold newSize
      rw [if_pos hcz]
    have hsum0 : 0 ≤ (rest.map Prod.snd).sum := by
      apply List.sum_nonneg
      intro x hx
      obtain ⟨p, hp, rfl⟩ := List.mem_map.mp hx
      exact le_of_lt (hrest p hp).2
    have hAB : newSize ch cs s + (rest.map Prod.snd).sum
        = s.current_size + (((ch, cs) :: rest).map Prod.snd).sum := by
      simp only [List.map_cons, List.sum_cons]
      rw [hns]
      ring
    by_cases hge : t ≤ newSize ch cs s
    · have hlineE : lineE (newSize ch cs s) s.width t = .ok (fullBarLine 58) := by
        rw [hw, lineE_of_ge (by omega : t ≠ -1) hge]
        norm_num
      have hrh := reporthook_of_lineE_ok hlineE
      rw [if_pos hl] at hrh
      rw [runHook_cons_print hrh]
      have hnil : (runHook t rest
          ⟨newSize ch cs s, s.width, some (fullBarLine 58)⟩).2 = [] := by
        apply runHook_prints_nothing
        · exact hw
        · rfl
        · omega
        · exact hge
        · exact fun p hp => ⟨(hrest p hp).1, le_of_lt (hrest p hp).2⟩
      rw [hnil]
      rw [if_pos (by rw [← hAB]; omega)]
      simp
    · push_neg at hge
      have hlineE : lineE (newSize ch cs s) s.width t
          = .ok (barLine (newSize ch cs s) 58 t) := by
        rw [hw, lineE_of_lt (by omega : t ≠ -1) hge (by omega : t ≠ 0)]
        norm_num
      have hrh := reporthook_of_lineE_ok hlineE
      by_cases hll : s.last_line ≠ some (barLine (newSize ch cs s) 58 t)
      · rw [if_pos hll] at hrh
        rw [runHook_cons_print hrh]
        have hcnt := ih ⟨newSize ch cs s, s.width, some (barLine (newSize ch cs s) 58 t)⟩
          hw (fun he => barLine_ne_fullBarLine _ _ _ _ (Option.some.inj he))
          ht hge hrest
        rw [List.count_cons_of_ne (Ne.symm (barLine_ne_fullBarLine _ _ _ _))]
        rw [hcnt]
        rw [show (⟨newSize ch cs s, s.width,
          some (barLine (newSize ch cs s) 58 t)⟩ : RHState).current_size
            = newSize ch cs s from rfl]
        rw [hAB]
      · rw [if_neg hll] at hrh
        rw [runHook_cons_skip hrh]
        have hl2 : ({ s with current_size := newSize ch cs s } : RHState).last_line
            ≠ some (fullBarLine 58) := hl
        have hcnt := ih { s with current_size := newSize ch cs s } hw hl2 ht hge hrest
        rw [hcnt]
        rw [show ({ s with current_size := newSize ch cs s } : RHState).current_size
            = newSize ch cs s from rfl]
        rw [hAB]

/-- Claim C8: `reporthook` suppresses duplicate output — a computed line
equal to `_last_line` is not printed; an immediately repeated call that
leaves the cumulative count unchanged prints nothing the second time;
and a strictly increasing sequence of cumulative values reaching the
total prints the 100%-complete line exactly once. -/
theorem claim_C8 :
    (∀ (ch : PyVal) (cs t : ℤ) (s : RHState) (line : String),
        lineE (newSize ch cs s) s.width t = Except.ok line →
        s.last_line = some line →
        (reporthook ch cs t s).2 = Except.ok none) ∧
    (∀ (ch : PyVal) (cs t : ℤ) (s : RHState) (out1 : Option String),
        (reporthook ch cs t s).1.current_size = s.current_size →
        (reporthook ch cs t s).2 = Except.ok out1 →
        (reporthook ch cs t ((reporthook ch cs t s).1)).2 = Except.ok none) ∧
    (∀ (t : ℤ) (calls : List (PyVal × ℤ)),
        0 < t →
        (∀ p ∈ calls, p.1.neZero = true ∧ 0 < p.2) →
        t ≤ (calls.map Prod.snd).sum →
        (runHook t calls initRH).2.count (fullBarLine 58) = 1) := by
  refine ⟨?_, ?_, ?_⟩
  · intro ch cs t s line hle hlast
    rw [reporthook_of_lineE_ok hle, if_neg (not_ne_iff.mpr hlast)]
  · intro ch cs t s out1 hcur hok
    cases hle : lineE (newSize ch cs s) s.width t with
    | error e =>
      rw [reporthook_of_lineE_error hle] at hok
      exact absurd hok (by simp)
    | ok line =>
      have hs1 := reporthook_of_lineE_ok hle
      have hs1last : (reporthook ch cs t s).1.last_line = some line := by
        rw [hs1]
        by_cases hll : s.last_line ≠ some line
        · rw [if_pos hll]
        · rw [if_neg hll]
          exact not_ne_iff.mp hll
      have hnss : newSize ch cs s = s.current_size :=
        (reporthook_current_size ch cs t s).symm.trans hcur
      have hnseq : newSize ch cs ((reporthook ch cs t s).1) = newSize ch cs s := by
        unfold newSize
        rw [reporthook_current_size ch cs t s, hnss]
      have hle2 : lineE (newSize ch cs ((reporthook ch cs t s).1))
          ((reporthook ch cs t s).1).width t = Except.ok line := by
        rw [hnseq, reporthook_width]
        exact hle
      rw [reporthook_of_lineE_ok hle2, if_neg (not_ne_iff.mpr hs1last)]
  · intro t calls ht hcalls hreach
    have h0 := runHook_count_full t calls initRH
      (by rw [initRH_eq])
      (by
        rw [initRH_eq]
        exact fun he => barLine_ne_fullBarLine _ _ _ _ (Option.some.inj he))
      ht
      (by rw [initRH_eq]; exact ht)
      hcalls
    rw [h0, if_pos (by rw [initRH_eq]; simpa using hreach)]

/-- Witness for C8 at a concrete input: a single strictly-advancing call
(the empty bytes chunk still counts, block size 2) past the total 1
prints the full bar exactly once. -/
theorem claim_C8_witness :
    (runHook 1 [(PyVal.bytes [], 2)] initRH).2.count (fullBarLine 58) = 1 :=
  claim_C8.2.2 1 [(PyVal.bytes [], 2)] (by decide) (by decide) (by decide)

end Worker
